import Mathlib

/-!
Verification of the pandora TDR console core (src/mtdr/python/pymtdr.py and
mtdr_mcp.py) against its natural-language specification.

Shallow embedding conventions:
* float64 samples and metadata are modelled as rationals (ℚ); the claims under
  study are about the exact (real-arithmetic) content of the computations.
* NaN-carrying float values are modelled as `Option ℚ` with `none` for NaN;
  arithmetic propagates `none`, and division by zero yields `none`.
* `np.log10` and `10 ** _` are modelled as function parameters `L`/`E` applied
  through `Option.map`, so a theorem quantified over them holds for any
  interpretation of the transcendental functions.
* The sample-stream ingestion thread body (`AppWindow._radium_sample_stream`)
  becomes a step function on an explicit state record; the `queue.Queue`
  handoff becomes a list with drop-on-full push (capacity 10, from
  `queue.Queue(maxsize=10)` in `_on_connect`).
-/

namespace Pandora

/-- A sample-stream message (`radium_public_pb2.SampleStream`): one acquired
waveform plus its acquisition metadata. -/
structure Frame where
  sample : List ℚ
  sample_spacing_ps : ℚ
  pulse_period_ns : ℚ
  ref_50ohm : ℚ
  ref_unit_amp : ℚ
deriving DecidableEq

/-- The mutable state touched by `AppWindow._radium_sample_stream` and the
handlers sharing `_radium_sample_stream_lock`.  `rxCount` is the thread-local
`rx_count_for_avg_calc`; `buffered` is `self._buffered_sample_stream`;
`queue` is the contents of `self._sample_stream_queue` (head = oldest). -/
structure StreamState where
  connected : Bool
  paused : Bool
  buffered : Option Frame
  rxCount : ℕ
  avgCount : ℕ
  queue : List Frame
deriving DecidableEq

/-- `self._sample_stream_queue.put(item, block=False)` with the surrounding
`except queue.Full: pass`: bounded FIFO of capacity 10, the new item is
silently dropped when the queue is full. -/
def queuePush (q : List Frame) (f : Frame) : List Frame :=
  if q.length < 10 then q ++ [f] else q

/-- One `get_nowait()` from the handoff queue. -/
def queuePop : List Frame → Option (Frame × List Frame)
  | [] => none
  | f :: q => some (f, q)

/-- Popping until `queue.Empty`, as `_pop_sample_stream_queue` does. -/
def queueDrain : List Frame → List Frame
  | [] => []
  | f :: q => f :: queueDrain q

/-- `(np.array(a) + np.array(b)).tolist()` on same-length arrays. -/
def zipAdd (a b : List ℚ) : List ℚ := List.zipWith (· + ·) a b

/-- The accumulation block of `_radium_sample_stream` (lines 743-752): start a
fresh accumulation when nothing is buffered or the count is 0; add into the
buffered sum when the epoch `(sample_spacing_ps, pulse_period_ns)` matches;
on mismatch store the new message with count 0. -/
def accumulate (st : StreamState) (msg : Frame) : StreamState :=
  match st.buffered with
  | none => { st with buffered := some msg, rxCount := 1 }
  | some b =>
    if st.rxCount = 0 then
      { st with buffered := some msg, rxCount := 1 }
    else if b.sample_spacing_ps = msg.sample_spacing_ps ∧
            b.pulse_period_ns = msg.pulse_period_ns then
      { st with buffered := some { b with sample := zipAdd b.sample msg.sample },
                rxCount := st.rxCount + 1 }
    else
      { st with buffered := some msg, rxCount := 0 }

/-- The emission block of `_radium_sample_stream` (lines 754-761): when the
count reaches `_waveform_average_count`, divide the buffered sum elementwise
by the count, reset the count, and push the averaged frame. -/
def emitIfReady (st : StreamState) : StreamState :=
  if st.rxCount = st.avgCount then
    match st.buffered with
    | some b =>
      let avg : Frame := { b with sample := b.sample.map (fun x => x / (st.rxCount : ℚ)) }
      { st with buffered := some avg, rxCount := 0, queue := queuePush st.queue avg }
    | none => st
  else st

/-- One iteration of the `while self._connected` loop body of
`_radium_sample_stream` for one received message: a paused display consumes
the message without touching the accumulator or the queue. -/
def radiumSampleStreamStep (st : StreamState) (msg : Frame) : StreamState :=
  if st.connected = false then st
  else if st.paused then st
  else emitIfReady (accumulate st msg)

/-- Feeding a sequence of messages through the ingestion loop. -/
def runStream (st : StreamState) (msgs : List Frame) : StreamState :=
  msgs.foldl radiumSampleStreamStep st

/-- `AppWindow._on_waveform_average_changed` (lines 861-866): under the lock,
set the new averaging factor and discard the buffered partial sum.  The
thread-local `rx_count_for_avg_calc` is not (and cannot be) touched. -/
def onWaveformAverageChanged (st : StreamState) (n : ℕ) : StreamState :=
  { st with avgCount := n, buffered := none }

/-- `AppWindow._on_play_pause_plot_updates` (lines 896-910): toggle the pause
flag; on entering pause, clear the handoff queue.  The accumulator fields are
not touched. -/
def onPlayPausePlotUpdates (st : StreamState) : StreamState :=
  if st.connected = false then st
  else
    let st1 := { st with paused := !st.paused }
    if st1.paused then { st1 with queue := [] } else st1

/-- Elementwise running sum of the samples of `gs` on top of `f.sample`,
as built up by successive `zipAdd`s in the accumulation loop. -/
def accumSamples (f : Frame) (gs : List Frame) : List ℚ :=
  gs.foldl (fun acc g => zipAdd acc g.sample) f.sample

/-- The averaged frame produced from a completed accumulation that started at
`f` and absorbed `gs`: samples are the elementwise sum divided by the window
size, metadata is that of `f` (the first frame of the accumulation). -/
def avgFrame (f : Frame) (gs : List Frame) : Frame :=
  { f with sample := (accumSamples f gs).map (fun x => x / ((gs.length + 1 : ℕ) : ℚ)) }

/-- `AppWindow._DisplayMode`. -/
inductive DisplayMode
  | S_N
  | IMPEDANCE
  | IMPEDANCE_LOG_SCALE
  | RHO
deriving DecidableEq

/-- A float64 cell: `none` is NaN, `some q` a (finite) numeric value. -/
abbrev V := Option ℚ

/-- Elementwise binary float op: NaN in either operand propagates. -/
def vbin (f : ℚ → ℚ → ℚ) (a b : V) : V := a.bind fun x => b.map fun y => f x y

def vadd (a b : V) : V := vbin (· + ·) a b

def vsub (a b : V) : V := vbin (· - ·) a b

def vmul (a b : V) : V := vbin (· * ·) a b

/-- Float division: NaN propagates; a zero denominator yields a non-numeric
result (in numpy an inf/NaN, here uniformly `none`). -/
def vdiv (a b : V) : V :=
  a.bind fun x => b.bind fun y => if y = 0 then none else some (x / y)

/-- `impedance[impedance <= 0] = np.nan`: non-positive values become NaN. -/
def vmask (v : V) : V := v.bind fun z => if z ≤ 0 then none else some z

/-- `AppWindow._convert_y_to` on one array cell.  `L` interprets `np.log10`
(only ever applied to values that survived `vmask`, i.e. positive ones) and
`E` interprets `10 ** _`; both are NaN-strict via `Option.map`. -/
def convert_y_to1 (L E : ℚ → ℚ) (in_mode out_mode : DisplayMode)
    (ref_50ohm ref_unit_amp : ℚ) (s : V) : V :=
  match in_mode with
  | .S_N =>
    match out_mode with
    | .RHO => vdiv (vsub s (some ref_50ohm)) (some ref_unit_amp)
    | .IMPEDANCE | .IMPEDANCE_LOG_SCALE =>
      let reflection_coeff := vdiv (vsub s (some ref_50ohm)) (some ref_unit_amp)
      let impedance :=
        vdiv (vmul (some 50) (vadd (some 1) reflection_coeff)) (vsub (some 1) reflection_coeff)
      if out_mode = .IMPEDANCE_LOG_SCALE then (vmask impedance).map L else impedance
    | _ => s
  | .RHO =>
    match out_mode with
    | .S_N => vadd (vmul s (some ref_unit_amp)) (some ref_50ohm)
    | .IMPEDANCE | .IMPEDANCE_LOG_SCALE =>
      let sample_sn := vadd (vmul s (some ref_unit_amp)) (some ref_50ohm)
      let reflection_coeff := vdiv (vsub sample_sn (some ref_50ohm)) (some ref_unit_amp)
      let impedance :=
        vdiv (vmul (some 50) (vadd (some 1) reflection_coeff)) (vsub (some 1) reflection_coeff)
      if out_mode = .IMPEDANCE_LOG_SCALE then (vmask impedance).map L else impedance
    | _ => s
  | .IMPEDANCE =>
    match out_mode with
    | .S_N =>
      let reflection_coeff := vdiv (vsub s (some 50)) (vadd s (some 50))
      vadd (vmul reflection_coeff (some ref_unit_amp)) (some ref_50ohm)
    | .RHO => vdiv (vsub s (some 50)) (vadd s (some 50))
    | .IMPEDANCE_LOG_SCALE => (vmask s).map L
    | _ => s
  | .IMPEDANCE_LOG_SCALE =>
    match out_mode with
    | .S_N =>
      let z := s.map E
      let reflection_coeff := vdiv (vsub z (some 50)) (vadd z (some 50))
      vadd (vmul reflection_coeff (some ref_unit_amp)) (some ref_50ohm)
    | .RHO =>
      let z := s.map E
      vdiv (vsub z (some 50)) (vadd z (some 50))
    | .IMPEDANCE => s.map E
    | _ => s

/-- `AppWindow._convert_y_to` on a whole sample array (numpy ops are
elementwise). -/
def convert_y_to (L E : ℚ → ℚ) (in_mode out_mode : DisplayMode)
    (ref_50ohm ref_unit_amp : ℚ) (xs : List V) : List V :=
  xs.map (convert_y_to1 L E in_mode out_mode ref_50ohm ref_unit_amp)

/-- `np.searchsorted(xs, xq)` (side `left`) on a sorted array: the number of
elements strictly below the query. -/
def searchsorted (xs : List ℚ) (xq : ℚ) : ℕ := xs.countP fun a => decide (a < xq)

/-- The `y_at_x` helper inside `AppWindow._update_vcursor_readouts` (lines
1037-1048).  `pow10` interprets `10 ** _`.  `none` stands for Python `None`
(empty data); out-of-range index accesses also yield `none` where Python
would raise. -/
def y_at_x (pow10 : ℚ → ℚ) (logScale : Bool) (xs ys : List ℚ) (xq : ℚ) : Option ℚ :=
  if xs.length = 0 then none
  else
    let idx := searchsorted xs xq
    if idx = 0 then ys.get? 0
    else if xs.length ≤ idx then ys.get? (ys.length - 1)
    else do
      let x0 ← xs.get? (idx - 1)
      let x1 ← xs.get? idx
      let y0 ← ys.get? (idx - 1)
      let y1 ← ys.get? idx
      if x1 = x0 then some y0
      else
        let t := (xq - x0) / (x1 - x0)
        if logScale then some (pow10 (y0 + t * (y1 - y0))) else some (y0 + t * (y1 - y0))

/-- `AppWindow._CursorBehaviorWhenClipped`. -/
inductive CursorBehaviorWhenClipped
  | USE_MIN
  | USE_MAX
deriving DecidableEq

/-- The vertical-cursor clamp of `AppWindow._toggle_cursor` (lines 997-1006),
applied when a cursor is toggled on: a position outside `[min_x, max_x]` is
moved to the bound fixed by the cursor's `when_clipped` policy. -/
def toggleCursorClampV (when_clipped : CursorBehaviorWhenClipped)
    (min_x max_x pos : ℚ) : ℚ :=
  if pos < min_x ∨ max_x < pos then
    match when_clipped with
    | .USE_MIN => min_x
    | .USE_MAX => max_x
  else pos

/-- The vertical-cursor clamp of `AppWindow._update_scatter_plot` (lines
1160-1163), applied to each cursor after new data arrives: a position below
`min_x` moves to `min_x`, above `max_x` moves to `max_x`. -/
def scatterClampV (min_x max_x pos : ℚ) : ℚ :=
  if pos < min_x then min_x else if max_x < pos then max_x else pos

/-! Preset alias resolution, from `MTDRMCPServer` in `mtdr_mcp.py`.  The
preset enum values are in bijection with the canonical keys of
`_PRESET_ALIASES`, so the embedding uses the canonical key itself as the
resolved preset identity. -/

/-- The keys of `MTDRMCPServer._PRESET_ALIASES`, in source order. -/
def PRESET_KEYS : List String :=
  ["3.2ns/0.2ps", "6.4ns/0.4ps", "12.8ns/0.8ps", "16.0ns/1.0ps",
   "32.0ns/2.0ps", "64.0ns/4.0ps", "80.0ns/5.0ps", "128.0ns/8.0ps",
   "160.0ns/10.0ps", "16.0ns/50.0ps", "16.0ns/100.0ps"]

/-- `re.findall(r"(\d+(?:\.\d+)?)", s)`: scan left to right, at each digit
take a maximal digit run, optionally followed by a decimal point and a
nonempty digit run.  The first argument is recursion fuel; any fuel of at
least the character count gives the scan's result. -/
def numTokensF : ℕ → List Char → List (List Char)
  | 0, _ => []
  | _, [] => []
  | fuel + 1, c :: cs =>
    if c.isDigit then
      let ds := cs.takeWhile Char.isDigit
      let rest := cs.dropWhile Char.isDigit
      match rest with
      | '.' :: r2 =>
        let ds2 := r2.takeWhile Char.isDigit
        if ds2.isEmpty then (c :: ds) :: numTokensF fuel rest
        else (c :: ds ++ '.' :: ds2) :: numTokensF fuel (r2.dropWhile Char.isDigit)
      | _ => (c :: ds) :: numTokensF fuel rest
    else numTokensF fuel cs

/-- Digit run to natural number. -/
def digitsToNat (ds : List Char) : ℕ :=
  ds.foldl (fun acc c => 10 * acc + (c.toNat - 48)) 0

/-- An unsigned decimal number `mant / 10 ^ scale`, the exact value of a
numeric token (the tokens here are nonnegative decimal literals). -/
structure DecNum where
  mant : ℕ
  scale : ℕ
deriving DecidableEq

/-- Python `float(token)` for an unsigned decimal token, kept exact. -/
def parseFloatToken (t : List Char) : DecNum :=
  let ip := t.takeWhile Char.isDigit
  let rest := t.dropWhile Char.isDigit
  match rest with
  | '.' :: fr => ⟨digitsToNat ip * 10 ^ fr.length + digitsToNat fr, fr.length⟩
  | _ => ⟨digitsToNat ip, 0⟩

/-- The value of a decimal token as a rational. -/
def DecNum.toRat (d : DecNum) : ℚ := (d.mant : ℚ) / (10 : ℚ) ^ d.scale

/-- `a / b` rounded half to even, as Python `format` rounds exact halves. -/
def roundHalfEvenDiv (a b : ℕ) : ℕ :=
  let q := a / b
  let r := a % b
  if 2 * r < b then q else if b < 2 * r then q + 1 else if q % 2 = 0 then q else q + 1

/-- Ten times the value of `d`, rounded half to even: the integer printed by
`f"{v:.1f}"` with its decimal point removed. -/
def tenths (d : DecNum) : ℕ :=
  match d.scale with
  | 0 => 10 * d.mant
  | s + 1 => roundHalfEvenDiv d.mant (10 ^ s)

/-- Decimal digits of a natural number (fuel-driven helper). -/
def natToStrAux : ℕ → ℕ → List Char → List Char
  | 0, _, acc => acc
  | fuel + 1, n, acc =>
    if n < 10 then Char.ofNat (48 + n) :: acc
    else natToStrAux fuel (n / 10) (Char.ofNat (48 + n % 10) :: acc)

def natToStr (n : ℕ) : String := String.mk (natToStrAux (n + 1) n [])

/-- Python `f"{v:.1f}"` for a nonnegative value. -/
def fmt1f (v : DecNum) : String :=
  let n := tenths v
  natToStr (n / 10) ++ "." ++ natToStr (n % 10)

/-- `s.strip()` for ASCII whitespace. -/
def stripStr (s : String) : String :=
  String.mk (((s.data.dropWhile Char.isWhitespace).reverse.dropWhile
    Char.isWhitespace).reverse)

/-- `s.lower()`. -/
def lowerStr (s : String) : String := String.mk (s.data.map Char.toLower)

/-- Byte-wise string order, matching Python string comparison on these ASCII
keys. -/
def strLeB (a b : String) : Bool :=
  match compare a b with
  | Ordering.gt => false
  | _ => true

def insertSorted (x : String) : List String → List String
  | [] => [x]
  | y :: ys => if strLeB x y then x :: y :: ys else y :: insertSorted x ys

/-- Python `sorted` on strings (stable, ascending). -/
def sortStrings (l : List String) : List String := l.foldr insertSorted []

/-- An ASCII single-quote character, kept out of the surrounding literals. -/
def squote : String := String.mk [Char.ofNat 39]

/-- The `ValueError` message raised by `_normalize_preset`, enumerating every
valid preset key. -/
def presetErrMsg (s : String) : String :=
  "Unrecognized preset " ++ squote ++ s ++ squote ++ ". Try one of: " ++
    String.intercalate ", " (sortStrings PRESET_KEYS)

instance {α β : Type} [DecidableEq α] [DecidableEq β] : DecidableEq (Except α β) := fun a b =>
  match a, b with
  | Except.ok x, Except.ok y =>
    if h : x = y then isTrue (by rw [h]) else isFalse (by simp [h])
  | Except.error x, Except.error y =>
    if h : x = y then isTrue (by rw [h]) else isFalse (by simp [h])
  | Except.ok _, Except.error _ => isFalse (by simp)
  | Except.error _, Except.ok _ => isFalse (by simp)

/-- `MTDRMCPServer._normalize_preset` (lines 40-52): exact key lookup after
strip/lower; otherwise extract the first two numeric tokens, regenerate the
canonical `<ns:.1f>ns/<ps:.1f>ps` key and look that up; otherwise a config
error listing all valid keys. -/
def normalize_preset (s : String) : Except String String :=
  let s0 := lowerStr (stripStr s)
  if PRESET_KEYS.contains s0 then Except.ok s0
  else
    let nums := (numTokensF (s0.data.length + 1) s0.data).map parseFloatToken
    match nums with
    | ns :: ps :: _ =>
      let key := fmt1f ns ++ "ns/" ++ fmt1f ps ++ "ps"
      if PRESET_KEYS.contains key then Except.ok key else Except.error (presetErrMsg s)
    | _ => Except.error (presetErrMsg s)

/-- The instrument RPCs issued by `MTDRMCPServer.configure_tdr_preset`: none
when alias resolution fails (`_normalize_preset` raises before any RPC). -/
def configure_tdr_preset_rpcs (s : String) : List String :=
  match normalize_preset s with
  | Except.error _ => []
  | Except.ok key => ["ConfigureTDRPreset " ++ key, "GetTDRConfiguration"]

/-! Helper lemmas shared by the claim theorems. -/

theorem radiumSampleStreamStep_paused (st : StreamState) (msg : Frame)
    (h : st.paused = true) : radiumSampleStreamStep st msg = st := by
  cases hc : st.connected <;> simp [radiumSampleStreamStep, h, hc]

theorem runStream_paused (st : StreamState) (msgs : List Frame)
    (h : st.paused = true) : runStream st msgs = st := by
  induction msgs with
  | nil => rfl
  | cons m ms ih =>
    show runStream (radiumSampleStreamStep st m) ms = st
    rw [radiumSampleStreamStep_paused st m h]
    exact ih

theorem runStream_append (st : StreamState) (xs ys : List Frame) :
    runStream st (xs ++ ys) = runStream (runStream st xs) ys :=
  List.foldl_append _ _ _ _

/-- While the window is not yet full, matching frames only add into the
buffered sum and bump the count; nothing is emitted. -/
theorem runStream_accum (gs : List Frame) (st : StreamState) (b : Frame)
    (hconn : st.connected = true) (hpause : st.paused = false)
    (hbuf : st.buffered = some b) (hrx : st.rxCount ≠ 0)
    (hmatch : ∀ g ∈ gs, b.sample_spacing_ps = g.sample_spacing_ps ∧
                        b.pulse_period_ns = g.pulse_period_ns)
    (hbound : st.rxCount + gs.length < st.avgCount) :
    runStream st gs =
      { st with buffered := some { b with sample := accumSamples b gs },
                rxCount := st.rxCount + gs.length } := by
  induction gs generalizing st b with
  | nil =>
    show st = _
    cases st
    simp_all [accumSamples]
  | cons g gs ih =>
    obtain ⟨hsp, hpp⟩ := hmatch g (by simp)
    have hb' : st.rxCount + gs.length + 1 < st.avgCount := by
      simp only [List.length_cons] at hbound; omega
    have hne : ¬(st.rxCount + 1 = st.avgCount) := by omega
    show runStream (radiumSampleStreamStep st g) gs = _
    have hstep : radiumSampleStreamStep st g =
        { st with buffered := some { b with sample := zipAdd b.sample g.sample },
                  rxCount := st.rxCount + 1 } := by
      simp only [radiumSampleStreamStep, hconn, hpause]
      simp only [accumulate, hbuf, if_neg hrx, hsp, hpp, and_self, if_true]
      simp [emitIfReady, hne, hconn, hpause]
    rw [hstep,
      ih { st with buffered := some { b with sample := zipAdd b.sample g.sample },
                   rxCount := st.rxCount + 1 }
        { b with sample := zipAdd b.sample g.sample } hconn hpause rfl
        (show st.rxCount + 1 ≠ 0 by omega)
        (fun g' hg' => hmatch g' (by simp [hg']))
        (show st.rxCount + 1 + gs.length < st.avgCount by omega)]
    simp only [accumSamples, List.foldl_cons, List.length_cons]
    congr 1
    omega

theorem accumSamples_concat (f : Frame) (init : List Frame) (g : Frame) :
    accumSamples f (init ++ [g]) = zipAdd (accumSamples f init) g.sample := by
  simp [accumSamples, List.foldl_append]

/-- Completing an accumulation window (first frame `f`, then the matching
frames `gs`, with the averaging factor equal to the window length) emits
exactly one averaged frame and resets the count to 0. -/
theorem runStream_window_emits (st : StreamState) (f : Frame) (gs : List Frame)
    (hconn : st.connected = true) (hpause : st.paused = false)
    (hstart : st.buffered = none ∨ st.rxCount = 0)
    (hN : st.avgCount = gs.length + 1)
    (hmatch : ∀ g ∈ gs, f.sample_spacing_ps = g.sample_spacing_ps ∧
                        f.pulse_period_ns = g.pulse_period_ns)
    (hq : st.queue.length < 10) :
    runStream st (f :: gs) =
      { st with buffered := some (avgFrame f gs), rxCount := 0,
                queue := st.queue ++ [avgFrame f gs] } := by
  have hacc : accumulate st f = { st with buffered := some f, rxCount := 1 } := by
    rcases hstart with h | h
    · simp [accumulate, h]
    · cases hb : st.buffered with
      | none => simp [accumulate, hb]
      | some b => simp [accumulate, hb, h]
  rcases List.eq_nil_or_concat gs with rfl | ⟨init, g, rfl⟩
  · simp only [List.length_nil, Nat.zero_add] at hN
    show radiumSampleStreamStep st f = _
    simp only [radiumSampleStreamStep, hconn, hpause]
    simp only [Bool.true_eq_false, if_false, Bool.false_eq_true, hacc]
    simp [emitIfReady, hN, queuePush, hq, avgFrame, accumSamples, hconn, hpause]
  · simp only [List.concat_eq_append] at hN hmatch ⊢
    have hmg := hmatch g (by simp)
    have hNlen : st.avgCount = init.length + 2 := by simpa using hN
    have hne1 : ¬((1 : ℕ) = st.avgCount) := by omega
    have hstep1 : radiumSampleStreamStep st f =
        { st with buffered := some f, rxCount := 1 } := by
      simp only [radiumSampleStreamStep, hconn, hpause]
      simp only [Bool.true_eq_false, if_false, Bool.false_eq_true, hacc]
      simp [emitIfReady, hne1, hconn, hpause]
    have hsplit : f :: (init ++ [g]) = (f :: init) ++ [g] := by simp
    rw [hsplit, runStream_append]
    have h2 : runStream st (f :: init) =
        { st with buffered := some { f with sample := accumSamples f init },
                  rxCount := 1 + init.length } := by
      show runStream (radiumSampleStreamStep st f) init = _
      rw [hstep1]
      have hlt : 1 + init.length < st.avgCount := by omega
      exact runStream_accum init _ f hconn hpause rfl Nat.one_ne_zero
        (fun g' hg' => hmatch g' (by simp [hg'])) hlt
    rw [h2]
    show radiumSampleStreamStep _ g = _
    have hrx2 : ¬(1 + init.length = 0) := by omega
    simp only [radiumSampleStreamStep, Bool.true_eq_false, if_false,
      Bool.false_eq_true, hconn, hpause]
    simp only [accumulate, if_neg hrx2, hmg.1, hmg.2, and_self, if_true]
    have heq : 1 + init.length + 1 = st.avgCount := by omega
    simp only [emitIfReady, heq, if_true, if_pos rfl]
    simp only [queuePush, if_pos hq, avgFrame, accumSamples_concat]
    have hlen : (init ++ [g]).length + 1 = 1 + init.length + 1 := by
      simp; omega
    simp only [hlen, accumSamples]
    rw [← heq, ← hmg.1, ← hmg.2]

/-- C1 (amended): when the accumulation count reaches the averaging factor
N (= `gs.length + 1`), exactly one averaged frame is pushed onto the handoff
queue; its samples are the elementwise sum of the N accumulated frames
divided by N, its metadata is that of the FIRST frame of the accumulation
(whose `sample_spacing_ps` and `pulse_period_ns` necessarily equal those of
every accumulated frame, the most recent included), and the count is reset
to 0. -/
theorem stream_emits_average (st : StreamState) (f : Frame) (gs : List Frame)
    (hconn : st.connected = true) (hpause : st.paused = false)
    (hstart : st.buffered = none ∨ st.rxCount = 0)
    (hN : st.avgCount = gs.length + 1)
    (hmatch : ∀ g ∈ gs, f.sample_spacing_ps = g.sample_spacing_ps ∧
                        f.pulse_period_ns = g.pulse_period_ns)
    (hq : st.queue.length < 10) :
    runStream st (f :: gs) =
      { st with buffered := some (avgFrame f gs), rxCount := 0,
                queue := st.queue ++ [avgFrame f gs] } :=
  runStream_window_emits st f gs hconn hpause hstart hN hmatch hq

/-- C1 counterexample: with averaging factor 2 and two epoch-matching input
frames that differ in `ref_50ohm` (0 for the first, 7 for the most recent),
the emitted averaged frame carries `ref_50ohm = 0`, the FIRST frame's value,
not the most recent frame's value 7. -/
theorem avg_metadata_counterexample :
    (runStream ⟨true, false, none, 0, 2, []⟩
        [⟨[1, 3], 5, 16, 0, 1⟩, ⟨[3, 5], 5, 16, 7, 9⟩]).queue.map Frame.ref_50ohm = [0] ∧
      (Frame.mk [3, 5] 5 16 7 9).ref_50ohm = 7 ∧ (0 : ℚ) ≠ 7 := by
  refine ⟨?_, rfl, by norm_num⟩
  norm_num [runStream, radiumSampleStreamStep, accumulate, emitIfReady, zipAdd, queuePush]

/-- Witness for C1: two frames of matching epoch with averaging factor 2
yield exactly one enqueued frame, the elementwise mean with the first
frame's metadata, and the count back at 0. -/
theorem stream_emits_average_witness :
    runStream ⟨true, false, none, 0, 2, []⟩
        [⟨[1, 3], 5, 16, 0, 1⟩, ⟨[3, 5], 5, 16, 7, 9⟩] =
      ⟨true, false, some ⟨[2, 4], 5, 16, 0, 1⟩, 0, 2, [⟨[2, 4], 5, 16, 0, 1⟩]⟩ := by
  have h := stream_emits_average ⟨true, false, none, 0, 2, []⟩ ⟨[1, 3], 5, 16, 0, 1⟩
    [⟨[3, 5], 5, 16, 7, 9⟩] rfl rfl (Or.inl rfl) rfl
    (by intro g hg; simp at hg; subst hg; exact ⟨rfl, rfl⟩) (by simp)
  rw [h]
  norm_num [avgFrame, accumSamples, zipAdd]

/-- C2 counterexample: with an accumulation in progress (count 1, factor 2),
a frame of a different `sample_spacing_ps` leaves the count at 0, not 1; and
feeding it followed by one epoch-matching frame (N - 1 = 1 further frame)
emits nothing. -/
theorem epoch_mismatch_count_counterexample :
    (radiumSampleStreamStep ⟨true, false, some ⟨[1], 5, 16, 0, 1⟩, 1, 2, []⟩
        ⟨[2], 6, 16, 0, 1⟩).rxCount = 0 ∧
    (runStream ⟨true, false, some ⟨[1], 5, 16, 0, 1⟩, 1, 2, []⟩
        [⟨[2], 6, 16, 0, 1⟩, ⟨[4], 6, 16, 0, 1⟩]).queue = [] := by
  constructor <;>
    norm_num [runStream, radiumSampleStreamStep, accumulate, emitIfReady, zipAdd, queuePush]

/-- C2 (amended): a frame whose `(sample_spacing_ps, pulse_period_ns)` differs
mid-accumulation discards the prior partial sum: the mismatching frame is
stored but the count becomes 0 (not 1), so the next frame — whatever its
epoch — starts a fresh accumulation with sum = its samples and count = 1,
and N further frames (not N - 1) are needed for the next output. -/
theorem epoch_mismatch_resets (st : StreamState) (b msg next : Frame)
    (hconn : st.connected = true) (hpause : st.paused = false)
    (hbuf : st.buffered = some b) (hrx : st.rxCount ≠ 0)
    (havg : 1 < st.avgCount)
    (hmism : ¬(b.sample_spacing_ps = msg.sample_spacing_ps ∧
               b.pulse_period_ns = msg.pulse_period_ns)) :
    radiumSampleStreamStep st msg = { st with buffered := some msg, rxCount := 0 } ∧
    radiumSampleStreamStep { st with buffered := some msg, rxCount := 0 } next =
      { st with buffered := some next, rxCount := 1 } := by
  have h0 : ¬((0 : ℕ) = st.avgCount) := by omega
  have h1 : ¬((1 : ℕ) = st.avgCount) := by omega
  constructor
  · simp only [radiumSampleStreamStep, hconn, hpause]
    simp only [Bool.true_eq_false, if_false, Bool.false_eq_true]
    simp only [accumulate, hbuf, if_neg hrx, if_neg hmism]
    simp [emitIfReady, h0, hconn, hpause]
  · simp only [radiumSampleStreamStep, hconn, hpause]
    simp only [Bool.true_eq_false, if_false, Bool.false_eq_true]
    simp only [accumulate]
    simp [emitIfReady, h1, hconn, hpause]

/-- Witness for C2: concrete mismatching frame with count 1, factor 2. -/
theorem epoch_mismatch_resets_witness :
    radiumSampleStreamStep ⟨true, false, some ⟨[1], 5, 16, 0, 1⟩, 1, 2, []⟩
        ⟨[2], 6, 16, 0, 1⟩ =
      ⟨true, false, some ⟨[2], 6, 16, 0, 1⟩, 0, 2, []⟩ ∧
    radiumSampleStreamStep ⟨true, false, some ⟨[2], 6, 16, 0, 1⟩, 0, 2, []⟩
        ⟨[4], 6, 16, 0, 1⟩ =
      ⟨true, false, some ⟨[4], 6, 16, 0, 1⟩, 1, 2, []⟩ := by
  have h := epoch_mismatch_resets ⟨true, false, some ⟨[1], 5, 16, 0, 1⟩, 1, 2, []⟩
    ⟨[1], 5, 16, 0, 1⟩ ⟨[2], 6, 16, 0, 1⟩ ⟨[4], 6, 16, 0, 1⟩ rfl rfl rfl
    Nat.one_ne_zero Nat.one_lt_two (by norm_num)
  exact h

/-- C3: changing the averaging factor (here to 2) discards any in-progress
partial sum immediately (`buffered` becomes `none`), one following frame does
not yet emit, and two epoch-matching following frames produce exactly one
averaged output. -/
theorem average_change_discards_partial (st : StreamState) (g1 g2 : Frame)
    (hconn : st.connected = true) (hpause : st.paused = false)
    (hq : st.queue.length < 10)
    (hmatch : g1.sample_spacing_ps = g2.sample_spacing_ps ∧
              g1.pulse_period_ns = g2.pulse_period_ns) :
    (onWaveformAverageChanged st 2).buffered = none ∧
    (runStream (onWaveformAverageChanged st 2) [g1]).queue = st.queue ∧
    runStream (onWaveformAverageChanged st 2) [g1, g2] =
      { st with avgCount := 2, buffered := some (avgFrame g1 [g2]), rxCount := 0,
                queue := st.queue ++ [avgFrame g1 [g2]] } := by
  refine ⟨rfl, ?_, ?_⟩
  · show (radiumSampleStreamStep _ g1).queue = st.queue
    simp [radiumSampleStreamStep, onWaveformAverageChanged, accumulate, emitIfReady,
      hconn, hpause]
  · exact runStream_window_emits (onWaveformAverageChanged st 2) g1 [g2] hconn hpause
      (Or.inl rfl) rfl
      (by intro g hg; simp at hg; subst hg; exact hmatch) hq

/-- Witness for C3: a partial sum of one frame under factor 4 is discarded by
switching to factor 2; the next two matching frames emit their mean. -/
theorem average_change_discards_partial_witness :
    (onWaveformAverageChanged ⟨true, false, some ⟨[9], 5, 16, 0, 1⟩, 1, 4, []⟩ 2).buffered
        = none ∧
    (runStream (onWaveformAverageChanged ⟨true, false, some ⟨[9], 5, 16, 0, 1⟩, 1, 4, []⟩ 2)
        [⟨[1], 5, 16, 0, 1⟩]).queue = [] ∧
    runStream (onWaveformAverageChanged ⟨true, false, some ⟨[9], 5, 16, 0, 1⟩, 1, 4, []⟩ 2)
        [⟨[1], 5, 16, 0, 1⟩, ⟨[3], 5, 16, 0, 1⟩] =
      ⟨true, false, some (avgFrame ⟨[1], 5, 16, 0, 1⟩ [⟨[3], 5, 16, 0, 1⟩]), 0, 2,
        [avgFrame ⟨[1], 5, 16, 0, 1⟩ [⟨[3], 5, 16, 0, 1⟩]]⟩ := by
  exact average_change_discards_partial ⟨true, false, some ⟨[9], 5, 16, 0, 1⟩, 1, 4, []⟩
    ⟨[1], 5, 16, 0, 1⟩ ⟨[3], 5, 16, 0, 1⟩ rfl rfl (by simp) ⟨rfl, rfl⟩

theorem foldl_queuePush_short (xs : List Frame) (q : List Frame)
    (h : q.length + xs.length ≤ 10) : xs.foldl queuePush q = q ++ xs := by
  induction xs generalizing q with
  | nil => simp
  | cons x xs ih =>
    show xs.foldl queuePush (queuePush q x) = _
    rw [queuePush, if_pos (by simp at h; omega)]
    rw [ih (q ++ [x]) (by simp at h ⊢; omega)]
    simp

theorem queueDrain_eq (q : List Frame) : queueDrain q = q := by
  induction q with
  | nil => rfl
  | cons f q ih => simp [queueDrain, ih]

/-- C4: pushing 11 items into the empty capacity-10 handoff queue drops
exactly the newest item: the queue holds the first 10 items, and a full
drain returns them in their original enqueue order. -/
theorem queue_overflow_drops_newest (xs : List Frame) (hlen : xs.length = 11) :
    xs.foldl queuePush [] = xs.take 10 ∧
    queueDrain (xs.foldl queuePush []) = xs.take 10 ∧
    (xs.foldl queuePush []).length = 10 := by
  rcases List.eq_nil_or_concat xs with rfl | ⟨ys, z, rfl⟩
  · simp at hlen
  · simp only [List.concat_eq_append] at hlen ⊢
    have hys : ys.length = 10 := by simp at hlen; omega
    have h1 : (ys ++ [z]).foldl queuePush [] = ys := by
      rw [List.foldl_append, foldl_queuePush_short ys [] (by simp [hys])]
      simp [queuePush, hys]
    have h2 : (ys ++ [z]).take 10 = ys := by
      rw [List.take_append_of_le_length (le_of_eq hys.symm), ← hys, List.take_length]
    exact ⟨by rw [h1, h2], by rw [h1, h2, queueDrain_eq], by rw [h1]; exact hys⟩

/-- Witness for C4: an explicit run of 11 distinct frames. -/
theorem queue_overflow_drops_newest_witness :
    ([⟨[0], 1, 1, 0, 1⟩, ⟨[1], 1, 1, 0, 1⟩, ⟨[2], 1, 1, 0, 1⟩, ⟨[3], 1, 1, 0, 1⟩,
      ⟨[4], 1, 1, 0, 1⟩, ⟨[5], 1, 1, 0, 1⟩, ⟨[6], 1, 1, 0, 1⟩, ⟨[7], 1, 1, 0, 1⟩,
      ⟨[8], 1, 1, 0, 1⟩, ⟨[9], 1, 1, 0, 1⟩, ⟨[10], 1, 1, 0, 1⟩] : List Frame).foldl
        queuePush [] =
      ([⟨[0], 1, 1, 0, 1⟩, ⟨[1], 1, 1, 0, 1⟩, ⟨[2], 1, 1, 0, 1⟩, ⟨[3], 1, 1, 0, 1⟩,
        ⟨[4], 1, 1, 0, 1⟩, ⟨[5], 1, 1, 0, 1⟩, ⟨[6], 1, 1, 0, 1⟩, ⟨[7], 1, 1, 0, 1⟩,
        ⟨[8], 1, 1, 0, 1⟩, ⟨[9], 1, 1, 0, 1⟩, ⟨[10], 1, 1, 0, 1⟩] : List Frame).take 10 := by
  exact (queue_overflow_drops_newest
    [⟨[0], 1, 1, 0, 1⟩, ⟨[1], 1, 1, 0, 1⟩, ⟨[2], 1, 1, 0, 1⟩, ⟨[3], 1, 1, 0, 1⟩,
     ⟨[4], 1, 1, 0, 1⟩, ⟨[5], 1, 1, 0, 1⟩, ⟨[6], 1, 1, 0, 1⟩, ⟨[7], 1, 1, 0, 1⟩,
     ⟨[8], 1, 1, 0, 1⟩, ⟨[9], 1, 1, 0, 1⟩, ⟨[10], 1, 1, 0, 1⟩] rfl).1

/-- C10: pausing clears the handoff queue but leaves the accumulator (the
buffered partial sum, the count and the averaging factor) untouched; frames
received while paused are consumed without changing the state; resuming
restores the un-paused state with the same accumulator, so accumulation
continues from the partial sum and count in effect at the pause. -/
theorem pause_preserves_accumulator (st : StreamState) (msgs : List Frame)
    (hconn : st.connected = true) (hpause : st.paused = false) :
    (onPlayPausePlotUpdates st).paused = true ∧
    (onPlayPausePlotUpdates st).buffered = st.buffered ∧
    (onPlayPausePlotUpdates st).rxCount = st.rxCount ∧
    (onPlayPausePlotUpdates st).avgCount = st.avgCount ∧
    (onPlayPausePlotUpdates st).queue = [] ∧
    runStream (onPlayPausePlotUpdates st) msgs = onPlayPausePlotUpdates st ∧
    onPlayPausePlotUpdates (runStream (onPlayPausePlotUpdates st) msgs) =
      { st with paused := false, queue := [] } := by
  have hp : onPlayPausePlotUpdates st = { st with paused := true, queue := [] } := by
    simp [onPlayPausePlotUpdates, hconn, hpause]
  have hr : runStream (onPlayPausePlotUpdates st) msgs = onPlayPausePlotUpdates st :=
    runStream_paused _ _ (by rw [hp])
  refine ⟨by rw [hp], by rw [hp], by rw [hp], by rw [hp], by rw [hp], hr, ?_⟩
  rw [hr, hp]
  simp [onPlayPausePlotUpdates, hconn]

/-- Witness for C10: a paused-then-resumed session around two incoming frames
keeps the partial sum `[5]` and count 1. -/
theorem pause_preserves_accumulator_witness :
    (onPlayPausePlotUpdates ⟨true, false, some ⟨[5], 1, 2, 3, 4⟩, 1, 4, [⟨[9], 1, 2, 3, 4⟩]⟩).paused
        = true ∧
    (onPlayPausePlotUpdates ⟨true, false, some ⟨[5], 1, 2, 3, 4⟩, 1, 4,
        [⟨[9], 1, 2, 3, 4⟩]⟩).buffered = some ⟨[5], 1, 2, 3, 4⟩ ∧
    (onPlayPausePlotUpdates ⟨true, false, some ⟨[5], 1, 2, 3, 4⟩, 1, 4,
        [⟨[9], 1, 2, 3, 4⟩]⟩).rxCount = 1 ∧
    (onPlayPausePlotUpdates ⟨true, false, some ⟨[5], 1, 2, 3, 4⟩, 1, 4,
        [⟨[9], 1, 2, 3, 4⟩]⟩).avgCount = 4 ∧
    (onPlayPausePlotUpdates ⟨true, false, some ⟨[5], 1, 2, 3, 4⟩, 1, 4,
        [⟨[9], 1, 2, 3, 4⟩]⟩).queue = [] ∧
    runStream (onPlayPausePlotUpdates ⟨true, false, some ⟨[5], 1, 2, 3, 4⟩, 1, 4,
        [⟨[9], 1, 2, 3, 4⟩]⟩) [⟨[7], 1, 2, 3, 4⟩, ⟨[8], 1, 2, 3, 4⟩] =
      onPlayPausePlotUpdates ⟨true, false, some ⟨[5], 1, 2, 3, 4⟩, 1, 4, [⟨[9], 1, 2, 3, 4⟩]⟩ ∧
    onPlayPausePlotUpdates (runStream (onPlayPausePlotUpdates
        ⟨true, false, some ⟨[5], 1, 2, 3, 4⟩, 1, 4, [⟨[9], 1, 2, 3, 4⟩]⟩)
        [⟨[7], 1, 2, 3, 4⟩, ⟨[8], 1, 2, 3, 4⟩]) =
      ⟨true, false, some ⟨[5], 1, 2, 3, 4⟩, 1, 4, []⟩ := by
  exact pause_preserves_accumulator ⟨true, false, some ⟨[5], 1, 2, 3, 4⟩, 1, 4,
    [⟨[9], 1, 2, 3, 4⟩]⟩ [⟨[7], 1, 2, 3, 4⟩, ⟨[8], 1, 2, 3, 4⟩] rfl rfl

/-- C9 counterexample: after new data arrives (`_update_scatter_plot`), a
cursor-1 position of 20 above the data range [0, 10] is moved to the maximum
10, not to the minimum 0 that the claim's fixed per-cursor policy asserts. -/
theorem scatter_clamp_counterexample :
    scatterClampV 0 10 20 = 10 ∧ scatterClampV 0 10 20 ≠ 0 := by
  constructor <;> norm_num [scatterClampV]

/-- C9 (amended): on cursor toggling, the out-of-bounds clamp follows the
fixed per-cursor assignment (cursor 1 → minimum x, cursor 2 → maximum x);
after new data arrives, each cursor instead clamps to the nearest violated
bound (below the minimum → minimum, above the maximum → maximum). -/
theorem cursor_clamp_policy (min_x max_x pos : ℚ)
    (hout : pos < min_x ∨ max_x < pos) :
    toggleCursorClampV .USE_MIN min_x max_x pos = min_x ∧
    toggleCursorClampV .USE_MAX min_x max_x pos = max_x ∧
    scatterClampV min_x max_x pos = (if pos < min_x then min_x else max_x) := by
  refine ⟨by simp [toggleCursorClampV, hout], by simp [toggleCursorClampV, hout], ?_⟩
  rcases hout with h | h
  · simp [scatterClampV, h]
  · rcases lt_or_le pos min_x with h2 | h2
    · simp [scatterClampV, h2]
    · simp [scatterClampV, h, not_lt.mpr h2]

/-- Witness for C9: position 20 against the range [0, 10]. -/
theorem cursor_clamp_policy_witness :
    toggleCursorClampV .USE_MIN 0 10 20 = 0 ∧
    toggleCursorClampV .USE_MAX 0 10 20 = 10 ∧
    scatterClampV 0 10 20 = 10 := by
  have h := cursor_clamp_policy 0 10 20 (Or.inr (by norm_num))
  refine ⟨h.1, h.2.1, ?_⟩
  rw [h.2.2]
  norm_num

theorem sn_z_roundtrip1 (L E : ℚ → ℚ) (x r50 ru : ℚ) (hru : ru ≠ 0)
    (hrho : |(x - r50) / ru| < 1) :
    convert_y_to1 L E .IMPEDANCE .S_N r50 ru
      (convert_y_to1 L E .S_N .IMPEDANCE r50 ru (some x)) = some x := by
  have hl : (x - r50) / ru < 1 := (abs_lt.mp hrho).2
  have h1 : (1 : ℚ) - (x - r50) / ru ≠ 0 := sub_ne_zero.mpr (ne_of_lt hl).symm
  have hz : 50 * (1 + (x - r50) / ru) / (1 - (x - r50) / ru) + 50 =
      100 / (1 - (x - r50) / ru) := by
    rw [div_add' _ _ _ h1]
    congr 1
    ring
  have hz0 : 50 * (1 + (x - r50) / ru) / (1 - (x - r50) / ru) + 50 ≠ 0 := by
    rw [hz]
    exact div_ne_zero (by norm_num) h1
  simp only [convert_y_to1]
  simp [vdiv, vsub, vadd, vmul, vbin, hru, h1, hz0]
  have hnum : 50 * (1 + (x - r50) / ru) / (1 - (x - r50) / ru) - 50 =
      100 * ((x - r50) / ru) / (1 - (x - r50) / ru) := by
    rw [div_sub' _ _ _ h1]
    congr 1
    ring
  rw [hnum, hz, div_div_eq_mul_div, div_mul_cancel₀ _ h1,
    mul_div_cancel_left₀ _ (by norm_num : (100 : ℚ) ≠ 0), div_mul_cancel₀ _ hru]
  ring

/-- C5: converting an `S_n` array to impedance and back is the identity (in
exact arithmetic) whenever `ref_unit_amp` is nonzero and every reflection
coefficient has magnitude below 1. -/
theorem sn_impedance_roundtrip (L E : ℚ → ℚ) (xs : List ℚ) (r50 ru : ℚ)
    (hru : ru ≠ 0) (hrho : ∀ x ∈ xs, |(x - r50) / ru| < 1) :
    convert_y_to L E .IMPEDANCE .S_N r50 ru
      (convert_y_to L E .S_N .IMPEDANCE r50 ru (xs.map some)) = xs.map some := by
  simp only [convert_y_to, List.map_map]
  exact List.map_congr_left fun x hx => sn_z_roundtrip1 L E x r50 ru hru (hrho x hx)

/-- Witness for C5: `S_n = 1/2` with `ref_50ohm = 0`, `ref_unit_amp = 1`
(reflection coefficient 1/2, impedance 150) round-trips exactly. -/
theorem sn_impedance_roundtrip_witness :
    convert_y_to id id .IMPEDANCE .S_N 0 1
        (convert_y_to id id .S_N .IMPEDANCE 0 1 ([(1 : ℚ)/2].map some)) =
      [(1 : ℚ)/2].map some := by
  exact sn_impedance_roundtrip id id [(1 : ℚ)/2] 0 1 (by norm_num)
    (by intro x hx; simp at hx; subst hx; rw [abs_of_pos] <;> norm_num)

/-- C6: NaN propagates through every conversion (a `none` cell stays `none`
for every in/out mode pair, with no error possible — the function is total);
and every conversion targeting log-scale impedance masks non-positive
impedance values to NaN before `log10` is interpreted: a non-positive
impedance input produces NaN, and the log-target conversion factors as
`map L ∘ vmask` applied to the impedance-target conversion, so `L` is only
ever applied to values that survived the mask. -/
theorem log_scale_nan_safety (L E : ℚ → ℚ) (r50 ru : ℚ) (im om : DisplayMode)
    (v : V) (z : ℚ) (hz : z ≤ 0) (him : im ≠ .IMPEDANCE_LOG_SCALE) :
    convert_y_to1 L E im om r50 ru none = none ∧
    convert_y_to1 L E .IMPEDANCE .IMPEDANCE_LOG_SCALE r50 ru (some z) = none ∧
    convert_y_to1 L E im .IMPEDANCE_LOG_SCALE r50 ru v =
      (vmask (convert_y_to1 L E im .IMPEDANCE r50 ru v)).map L := by
  refine ⟨?_, ?_, ?_⟩
  · cases im <;> cases om <;>
      simp [convert_y_to1, vdiv, vsub, vadd, vmul, vbin, vmask]
  · simp [convert_y_to1, vmask, hz]
  · cases im with
    | S_N => simp [convert_y_to1]
    | IMPEDANCE => simp [convert_y_to1]
    | RHO => simp [convert_y_to1]
    | IMPEDANCE_LOG_SCALE => exact absurd rfl him

/-- Witness for C6: NaN survives `S_n → Rho`; impedance `-3 ≤ 0` maps to NaN
under the log target; the `S_n → logZ` conversion is the masked-then-logged
impedance conversion. -/
theorem log_scale_nan_safety_witness :
    convert_y_to1 id id .S_N .RHO 0 1 none = none ∧
    convert_y_to1 id id .IMPEDANCE .IMPEDANCE_LOG_SCALE 0 1 (some (-3)) = none ∧
    convert_y_to1 id id .S_N .IMPEDANCE_LOG_SCALE 0 1 (some 2) =
      (vmask (convert_y_to1 id id .S_N .IMPEDANCE 0 1 (some 2))).map id := by
  exact log_scale_nan_safety id id 0 1 .S_N .RHO (some 2) (-3)
    (by norm_num) (by simp)

/-- C7 (code bug): with the display in log scale, the early-return paths of
`y_at_x` report the raw stored log-space value instead of `10 ** value`: a
query at the first sample's x-coordinate (or below it) returns the stored
coordinate 2 unchanged under EVERY interpretation `P` of `10 ** _` — the
exponentiation is never applied — while an interior query does apply `P`.
The claim (and spec §4.4) requires every log-mode readout to be
exponentiated. -/
theorem y_at_x_log_boundary_raw :
    (∀ P : ℚ → ℚ, y_at_x P true [0, 1] [2, 3] 0 = some 2) ∧
    (∀ P : ℚ → ℚ, y_at_x P true [0, 1] [2, 3] (-1) = some 2) ∧
    (∀ P : ℚ → ℚ, y_at_x P true [0, 1] [2, 3] (1/2) = some (P (5/2))) := by
  refine ⟨fun P => ?_, fun P => ?_, fun P => ?_⟩ <;>
    norm_num [y_at_x, searchsorted, List.countP_cons, List.countP_nil]

/-- C8: `"16.0ns/1.0ps"`, `"16ns/1ps"` and `"16/1"` all resolve to the same
canonical preset key; `"xyz"` is a config error whose message enumerates all
11 valid preset keys (sorted), and no instrument RPC is issued for it. -/
theorem preset_alias_resolution :
    normalize_preset "16.0ns/1.0ps" = Except.ok "16.0ns/1.0ps" ∧
    normalize_preset "16ns/1ps" = Except.ok "16.0ns/1.0ps" ∧
    normalize_preset "16/1" = Except.ok "16.0ns/1.0ps" ∧
    normalize_preset "xyz" =
      Except.error ("Unrecognized preset " ++ squote ++ "xyz" ++ squote ++
        ". Try one of: 12.8ns/0.8ps, 128.0ns/8.0ps, 16.0ns/1.0ps, 16.0ns/100.0ps, 16.0ns/50.0ps, 160.0ns/10.0ps, 3.2ns/0.2ps, 32.0ns/2.0ps, 6.4ns/0.4ps, 64.0ns/4.0ps, 80.0ns/5.0ps") ∧
    (∀ k ∈ PRESET_KEYS, (sortStrings PRESET_KEYS).contains k = true) ∧
    configure_tdr_preset_rpcs "xyz" = [] := by
  set_option maxRecDepth 8000 in decide

end Pandora


